import Mathlib

set_option maxRecDepth 8000

/-! Shallow embedding of the NVM controller driver (src/hal/src/thumbv7em/nvm.rs).

Machine integers are modelled as Nat with an explicit reduction modulo 2 ^ 32
where 32-bit overflow matters. Register reads are modelled as fields of an
explicit state record; hardware commands, the ADDR register writes and the
page-buffer stores performed by the driver are recorded as a list of events.
-/

/-- PAGESIZE from nvm.rs: size of a page in bytes. -/
def PAGESIZE : Nat := 512

/-- BLOCKSIZE from nvm.rs: size of one block in bytes. -/
def BLOCKSIZE : Nat := 512 * 16

/-- Modulus of 32-bit machine arithmetic. -/
def U32 : Nat := 2 ^ 32

/-- Subset of the CMD_AW command enumeration used by the embedded operations. -/
inductive Cmd
  | PBC
  | WP
  | EB
  | EP
deriving DecidableEq

/-- INTFLAG register bits read by manage_error_states. -/
structure IntFlags where
  addre : Bool
  locke : Bool
  proge : Bool
deriving DecidableEq

/-- PeripheralError from nvm.rs. -/
inductive PeripheralError
  | NvmError
  | EccSingleError
  | EccDualError
  | LockError
  | ProgrammingError
  | AddressError
deriving DecidableEq

/-- Driver Error from nvm.rs. The Dsu payload is external to this module and is
not needed by any operation embedded here, so the variant carries no data. -/
inductive Error
  | Protected
  | SmartEepromArea
  | NoChangeBootProtection
  | Peripheral (e : PeripheralError)
  | Dsu
  | Alignment
deriving DecidableEq

/-- Result of a driver operation returning unit, matching Result of () in nvm.rs. -/
inductive NvmResult
  | ok
  | error (e : Error)
deriving DecidableEq

/-- Observable register state of the controller used by the embedded operations:
the STATUS.BPDIS bit, the STATUS.BOOTPROT field, the runtime bank size and the
INTFLAG bits observed by the error decoder of write. -/
structure NvmState where
  bpdis : Bool
  bootprot : Nat
  bank_size : Nat
  intflag : IntFlags
deriving DecidableEq

/-- Half open machine range with start and stop fields, as core ops Range of u32. -/
structure Range32 where
  start : Nat
  stop : Nat
deriving DecidableEq

/-- Bank from nvm.rs. -/
inductive Bank
  | Active
  | Inactive
deriving DecidableEq

/-- Bank.address from nvm.rs, with the runtime bank size passed explicitly. -/
def Bank.address (bank_size : Nat) : Bank → Nat
  | .Active => 0
  | .Inactive => bank_size

/-- Nvm.is_boot_protected from nvm.rs: negation of the STATUS.BPDIS bit. -/
def is_boot_protected (s : NvmState) : Bool := !s.bpdis

/-- range_overlap from nvm.rs. -/
def range_overlap (a b : Range32) : Bool :=
  decide (a.start ≠ a.stop) && decide (b.start ≠ b.stop) &&
    decide (a.start ≤ b.stop) && decide (b.start ≤ a.stop)

/-- Protected size computed inside Nvm.contains_bootprotected: 8 KiB times
(15 - bootprot). -/
def bp_space (s : NvmState) : Nat := 8 * 1024 * (15 - s.bootprot)

/-- Boot protected range constructed inside Nvm.contains_bootprotected. -/
def boot_range (s : NvmState) : Range32 :=
  ⟨Bank.address s.bank_size Bank.Active, Bank.address s.bank_size Bank.Active + bp_space s⟩

/-- Nvm.contains_bootprotected from nvm.rs. -/
def contains_bootprotected (s : NvmState) (inp : Range32) : Bool :=
  is_boot_protected s && range_overlap inp (boot_range s)

/-- Nvm.contains_smart_eeprom from nvm.rs: always false. -/
def contains_smart_eeprom (_s : NvmState) (_inp : Range32) : Bool := false

/-- Sticky flag clear writes performed by manage_error_states. -/
inductive StickyFlag
  | addre
  | locke
  | proge
deriving DecidableEq

/-- Nvm.manage_error_states from nvm.rs: classify the INTFLAG bits in priority
order (ADDRE, then LOCKE, then PROGE), then clear the three sticky flags by one
write each. Returns the classification and the list of flag clear writes. -/
def manage_error_states (f : IntFlags) : NvmResult × List StickyFlag :=
  let state : NvmResult :=
    if f.addre then .error (.Peripheral .AddressError)
    else if f.locke then .error (.Peripheral .LockError)
    else if f.proge then .error (.Peripheral .ProgrammingError)
    else .ok
  (state, [StickyFlag.addre, StickyFlag.locke, StickyFlag.proge])

/-- Hardware interactions recorded by the embedded write and erase operations:
a command issued through CTRLB, a write of the ADDR register, a page buffer
store, and a run of the error decoder. -/
inductive Event
  | cmd (c : Cmd)
  | setAddr (a : Nat)
  | pbWrite (dst src : Nat)
  | decode
deriving DecidableEq

/-- Value written to the ADDR register by Nvm.set_address: the address masked
with 0x00ff_ffff. -/
def set_address_value (address : Nat) : Nat := address &&& 0x00ffffff

/-- Iteration count of a Rust half open range traversed with step_by. -/
def stepCount (r : Range32) (step : Nat) : Nat :=
  if r.start < r.stop then (r.stop - r.start + (step - 1)) / step else 0

/-- Loop body of Nvm.write: one page buffer store per word, followed by a WP
command whenever the destination offset has reached the last word of a page.
Returns the events of the loop and the final value of the dirty flag. -/
def writeLoop : Nat → Nat → Bool → Nat → List Event × Bool
  | _, _, dirty, 0 => ([], dirty)
  | dst, src, _, n + 1 =>
    if dst % PAGESIZE ≥ PAGESIZE - 4 then
      let rest := writeLoop (dst + 4) (src + 4) false n
      (Event.pbWrite dst src :: Event.cmd Cmd.WP :: rest.1, rest.2)
    else
      let rest := writeLoop (dst + 4) (src + 4) true n
      (Event.pbWrite dst src :: rest.1, rest.2)

/-- Nvm.write from nvm.rs, as a function from the register state and the
arguments to the returned result and the list of hardware events. The zipped
iteration over the two step_by ranges runs for the smaller of the two step
counts, starting from the two given addresses and advancing both by 4. -/
def write (s : NvmState) (destination_address source_address words : Nat) :
    NvmResult × List Event :=
  let step_size : Nat := 4
  let length : Nat := (words * step_size) % U32
  let read_addresses : Range32 := ⟨source_address, (source_address + length) % U32⟩
  let write_addresses : Range32 := ⟨destination_address, (destination_address + length) % U32⟩
  if source_address % step_size ≠ 0 then (.error .Alignment, [])
  else if destination_address % step_size ≠ 0 then (.error .Alignment, [])
  else if contains_bootprotected s write_addresses then (.error .Protected, [])
  else if contains_smart_eeprom s write_addresses then (.error .SmartEepromArea, [])
  else
    let n := min (stepCount write_addresses step_size) (stepCount read_addresses step_size)
    let looped := writeLoop destination_address source_address false n
    ((manage_error_states s.intflag).1,
      Event.cmd Cmd.PBC :: looped.1 ++
        (if looped.2 then [Event.cmd Cmd.WP] else []) ++ [Event.decode])

/-- EraseGranularity from nvm.rs. -/
inductive EraseGranularity
  | Block
  | Page
deriving DecidableEq

/-- EraseGranularity.command from nvm.rs. -/
def EraseGranularity.command : EraseGranularity → Cmd
  | .Block => Cmd.EB
  | .Page => Cmd.EP

/-- EraseGranularity.size from nvm.rs. -/
def EraseGranularity.size : EraseGranularity → Nat
  | .Block => BLOCKSIZE
  | .Page => PAGESIZE

/-- Events of one iteration of the erase loop: set the unit address, issue the
erase command of the granularity, run the error decoder. -/
def eraseUnitEvents (g : EraseGranularity) (addr : Nat) : List Event :=
  [Event.setAddr (set_address_value addr), Event.cmd g.command, Event.decode]

/-- Erase loop of Nvm.erase. The flags argument gives the INTFLAG bits observed
by the error decoder after each unit, indexed by the iteration counter; the
loop stops and returns the decoded error as soon as the decoder reports one. -/
def eraseLoop (flags : Nat → IntFlags) (g : EraseGranularity) :
    Nat → Nat → Nat → NvmResult × List Event
  | _, 0, _ => (.ok, [])
  | addr, n + 1, i =>
    match (manage_error_states (flags i)).1 with
    | .error e => (.error e, eraseUnitEvents g addr)
    | .ok =>
      let rest := eraseLoop flags g (addr + g.size) n (i + 1)
      (rest.1, eraseUnitEvents g addr ++ rest.2)

/-- Nvm.erase from nvm.rs. -/
def erase (s : NvmState) (flags : Nat → IntFlags) (address length : Nat)
    (granularity : EraseGranularity) : NvmResult × List Event :=
  let flash_address := address - address % granularity.size
  let range_to_erase : Range32 :=
    ⟨flash_address, (flash_address + (length * granularity.size) % U32) % U32⟩
  if contains_bootprotected s range_to_erase then (.error .Protected, [])
  else if contains_smart_eeprom s range_to_erase then (.error .SmartEepromArea, [])
  else eraseLoop flags granularity flash_address (stepCount range_to_erase granularity.size) 0

/-- Byte read loop shared by the three fixed region decoders of nvm.rs: read n
bytes one at a time starting at base, accumulating them little endian with a
bitwise or of each byte shifted by 8 times its index. Returns the accumulated
value and the list of addresses read, in order. -/
def readLoop (mem : Nat → Nat) (base : Nat) : Nat → Nat × List Nat
  | 0 => (0, [])
  | n + 1 =>
    let acc := readLoop mem base n
    (acc.1 ||| mem (base + n) <<< (n * 8), acc.2 ++ [base + n])

/-- Nvm.user_page from nvm.rs: 16 bytes read from 0x0080_4000. -/
def user_page (mem : Nat → Nat) : Nat × List Nat := readLoop mem 0x00804000 16

/-- Nvm.calibration_area from nvm.rs: 6 bytes read from 0x0080_0080. -/
def calibration_area (mem : Nat → Nat) : Nat × List Nat := readLoop mem 0x00800080 6

/-- Nvm.temperatures_calibration_area from nvm.rs: 11 bytes read from 0x0080_0100. -/
def temperatures_calibration_area (mem : Nat → Nat) : Nat × List Nat :=
  readLoop mem 0x00800100 11

/-- Little endian value of n memory bytes starting at base, following the words
of the spec on the fixed region decoders. -/
def bytesLE (mem : Nat → Nat) (base n : Nat) : Nat :=
  ((List.range n).map (fun i => mem (base + i) * 256 ^ i)).sum

/-- vph accessor of TemperaturesCalibrationArea: bits 63 down to 52 of the raw
128-bit value. -/
def vph (raw : Nat) : Nat := (raw >>> 52) % 2 ^ 12

/-- vcl accessor of TemperaturesCalibrationArea: bits 75 down to 63 of the raw
128-bit value. -/
def vcl (raw : Nat) : Nat := (raw >>> 63) % 2 ^ 13

/-- Number of occurrences of a given command among a list of events. -/
def countCmd (c : Cmd) : List Event → Nat
  | [] => 0
  | Event.cmd c2 :: rest => (if c2 = c then 1 else 0) + countCmd c rest
  | Event.setAddr _ :: rest => countCmd c rest
  | Event.pbWrite _ _ :: rest => countCmd c rest
  | Event.decode :: rest => countCmd c rest

/-- Addresses written to the ADDR register among a list of events, in order. -/
def setAddrs : List Event → List Nat
  | [] => []
  | Event.setAddr a :: rest => a :: setAddrs rest
  | Event.cmd _ :: rest => setAddrs rest
  | Event.pbWrite _ _ :: rest => setAddrs rest
  | Event.decode :: rest => setAddrs rest

/-- Number of decoder runs among a list of events. -/
def countDecode : List Event → Nat
  | [] => 0
  | Event.decode :: rest => 1 + countDecode rest
  | Event.cmd _ :: rest => countDecode rest
  | Event.setAddr _ :: rest => countDecode rest
  | Event.pbWrite _ _ :: rest => countDecode rest

/-- Number of occurrences of a flag among a list of flag clear writes. -/
def countFlag (fl : StickyFlag) : List StickyFlag → Nat
  | [] => 0
  | x :: rest => (if x = fl then 1 else 0) + countFlag fl rest

/-- The set intersection of two half open ranges is inhabited, following the
words of the spec on the protection guard. -/
def rangesIntersect (a b : Range32) : Prop :=
  ∃ x, (a.start ≤ x ∧ x < a.stop) ∧ (b.start ≤ x ∧ x < b.stop)

/-- Register state with boot protection disabled and no error flags set. -/
def stateUnprot : NvmState := ⟨true, 0, 262144, ⟨false, false, false⟩⟩

/-- Register state with maximal boot protection enabled and no error flags set. -/
def stateProt : NvmState := ⟨false, 0, 262144, ⟨false, false, false⟩⟩

/-- INTFLAG sequence with no error bits ever set. -/
def okFlags : Nat → IntFlags := fun _ => ⟨false, false, false⟩

/-- INTFLAG sequence reporting an address error after the first erase unit. -/
def errFlags : Nat → IntFlags := fun i => if i = 0 then ⟨true, false, false⟩ else ⟨false, false, false⟩

/-- Counting a command distributes over list append. -/
theorem countCmd_append (c : Cmd) (l1 l2 : List Event) :
    countCmd c (l1 ++ l2) = countCmd c l1 + countCmd c l2 := by
  induction l1 with
  | nil => simp [countCmd]
  | cons e rest ih => cases e <;> simp [countCmd, ih] <;> omega

/-- Extracting ADDR register writes distributes over list append. -/
theorem setAddrs_append (l1 l2 : List Event) :
    setAddrs (l1 ++ l2) = setAddrs l1 ++ setAddrs l2 := by
  induction l1 with
  | nil => simp [setAddrs]
  | cons e rest ih => cases e <;> simp [setAddrs, ih]

/-- Counting decoder runs distributes over list append. -/
theorem countDecode_append (l1 l2 : List Event) :
    countDecode (l1 ++ l2) = countDecode l1 + countDecode l2 := by
  induction l1 with
  | nil => simp [countDecode]
  | cons e rest ih => cases e <;> simp [countDecode, ih] <;> omega

/-- A step count of 4 over a range of 4 times w bytes is exactly w. -/
theorem stepCount_words (a w : Nat) : stepCount ⟨a, a + w * 4⟩ 4 = w := by
  unfold stepCount
  dsimp only
  split <;> omega

/-- The write loop never issues a page buffer clear command. -/
theorem writeLoop_countPBC (n : Nat) : ∀ dst src : Nat, ∀ d : Bool,
    countCmd Cmd.PBC (writeLoop dst src d n).1 = 0 := by
  induction n with
  | zero => intro dst src d; simp [writeLoop, countCmd]
  | succ n ih =>
    intro dst src d
    by_cases hb : dst % PAGESIZE ≥ PAGESIZE - 4 <;>
      simp [writeLoop, hb, countCmd, ih]

/-- WP commands issued inside the write loop, counted in closed form from the
page offset of the starting destination address. -/
theorem writeLoop_countWP (n : Nat) : ∀ dst src : Nat, ∀ d : Bool, dst % 4 = 0 →
    countCmd Cmd.WP (writeLoop dst src d n).1 = (dst % 512 / 4 + n) / 128 := by
  induction n with
  | zero =>
    intro dst src d h
    simp only [writeLoop, countCmd]
    omega
  | succ n ih =>
    intro dst src d h
    have h4 : (dst + 4) % 4 = 0 := by omega
    by_cases hb : dst % PAGESIZE ≥ PAGESIZE - 4
    · have hb5 : dst % 512 ≥ 508 := by simpa [PAGESIZE] using hb
      have e1 : dst % 512 = 508 := by omega
      have e2 : (dst + 4) % 512 = 0 := by omega
      simp only [writeLoop, if_pos hb, countCmd, eq_self_iff_true, if_true]
      rw [ih (dst + 4) (src + 4) false h4, e1, e2]
      omega
    · have hb5 : dst % 512 < 508 := by
        simp only [PAGESIZE, ge_iff_le, not_le] at hb
        omega
      have e2 : (dst + 4) % 512 = dst % 512 + 4 := by omega
      simp only [writeLoop, if_neg hb, countCmd]
      rw [ih (dst + 4) (src + 4) true h4, e2]
      omega

/-- Final value of the dirty flag of the write loop, in closed form. -/
theorem writeLoop_dirty (n : Nat) : ∀ dst src : Nat, ∀ d : Bool, dst % 4 = 0 →
    (writeLoop dst src d n).2 =
      (if n = 0 then d else decide ((dst % 512 / 4 + n) % 128 ≠ 0)) := by
  induction n with
  | zero => intro dst src d h; simp [writeLoop]
  | succ n ih =>
    intro dst src d h
    have h4 : (dst + 4) % 4 = 0 := by omega
    by_cases hb : dst % PAGESIZE ≥ PAGESIZE - 4
    · have hb5 : dst % 512 ≥ 508 := by simpa [PAGESIZE] using hb
      have e1 : dst % 512 = 508 := by omega
      have e2 : (dst + 4) % 512 = 0 := by omega
      simp only [writeLoop, if_pos hb]
      rw [ih (dst + 4) (src + 4) false h4, e2]
      rcases Nat.eq_zero_or_pos n with hn | hn
      · subst hn
        rw [if_pos rfl, if_neg (by omega), e1]
        decide
      · rw [if_neg (by omega), if_neg (by omega), e1, decide_eq_decide]
        omega
    · have hb5 : dst % 512 < 508 := by
        simp only [PAGESIZE, ge_iff_le, not_le] at hb
        omega
      have e2 : (dst + 4) % 512 = dst % 512 + 4 := by omega
      simp only [writeLoop, if_neg hb]
      rw [ih (dst + 4) (src + 4) true h4, e2]
      rcases Nat.eq_zero_or_pos n with hn | hn
      · subst hn
        rw [if_pos rfl, if_neg (by omega)]
        symm
        simp only [decide_eq_true_eq, ne_eq]
        omega
      · rw [if_neg (by omega), if_neg (by omega), decide_eq_decide]
        omega

/-- Bitwise or with a left shifted value is addition when the low part fits
below the shift amount. -/
theorem lor_shiftLeft_eq_add (a b k : Nat) (h : a < 2 ^ k) :
    a ||| b <<< k = a + b * 2 ^ k := by
  apply Nat.eq_of_testBit_eq
  intro i
  rw [Nat.testBit_lor, Nat.testBit_shiftLeft]
  rcases Nat.lt_or_ge i k with hik | hik
  · have hd : decide (k ≤ i) = false := by simp; omega
    rw [hd, Bool.false_and, Bool.or_false]
    have hsplit : 2 ^ k = 2 ^ i * 2 ^ (k - i) := by
      rw [← pow_add]
      congr 1
      omega
    have hki : k - i = (k - i - 1) + 1 := by omega
    rw [Nat.testBit_to_div_mod, Nat.testBit_to_div_mod]
    congr 1
    rw [hsplit, show b * (2 ^ i * 2 ^ (k - i)) = b * 2 ^ (k - i) * 2 ^ i from by ring,
      Nat.add_mul_div_right _ _ (Nat.pos_pow_of_pos i (by omega))]
    rw [hki, pow_succ, show b * (2 ^ (k - i - 1) * 2) = b * 2 ^ (k - i - 1) * 2 from by ring,
      Nat.add_mul_mod_self_right]
  · have hd : decide (k ≤ i) = true := by simp; omega
    rw [hd, Bool.true_and]
    rw [Nat.testBit_eq_false_of_lt (lt_of_lt_of_le h (Nat.pow_le_pow_right (by omega) hik)),
      Bool.false_or]
    rw [Nat.testBit_to_div_mod, Nat.testBit_to_div_mod]
    congr 2
    rw [show (2 : Nat) ^ i = 2 ^ k * 2 ^ (i - k) from by rw [← pow_add]; congr 1; omega]
    rw [← Nat.div_div_eq_div_mul]
    congr 1
    rw [Nat.add_mul_div_right _ _ (Nat.pos_pow_of_pos k (by omega)), Nat.div_eq_of_lt h,
      Nat.zero_add]

/-- The byte read loop reads exactly the n consecutive addresses from base. -/
theorem readLoop_addrs (mem : Nat → Nat) (base : Nat) :
    ∀ n, (readLoop mem base n).2 = (List.range n).map (fun i => base + i) := by
  intro n
  induction n with
  | zero => simp [readLoop]
  | succ n ih => simp [readLoop, ih, List.range_succ]

/-- The byte read loop accumulates the little endian value of the bytes read,
and that value is bounded by 256 to the number of bytes. -/
theorem readLoop_val (mem : Nat → Nat) (base : Nat) (hmem : ∀ a, mem a < 256) :
    ∀ n, (readLoop mem base n).1 = bytesLE mem base n ∧
      (readLoop mem base n).1 < 2 ^ (n * 8) := by
  intro n
  induction n with
  | zero => simp [readLoop, bytesLE]
  | succ n ih =>
    obtain ⟨ihv, ihlt⟩ := ih
    have hpow : (256 : Nat) ^ n = 2 ^ (n * 8) := by
      rw [show (256 : Nat) = 2 ^ 8 from by norm_num, ← pow_mul, Nat.mul_comm]
    have hstep : (readLoop mem base (n + 1)).1 =
        (readLoop mem base n).1 + mem (base + n) * 2 ^ (n * 8) := by
      simp only [readLoop]
      exact lor_shiftLeft_eq_add _ _ _ ihlt
    constructor
    · rw [hstep, ihv]
      simp only [bytesLE, List.range_succ, List.map_append, List.sum_append, List.map_cons,
        List.map_nil, List.sum_cons, List.sum_nil, hpow]
      omega
    · rw [hstep]
      have hb : mem (base + n) ≤ 255 := by have := hmem (base + n); omega
      have hmul : mem (base + n) * 2 ^ (n * 8) ≤ 255 * 2 ^ (n * 8) :=
        Nat.mul_le_mul_right _ hb
      have htot : (readLoop mem base n).1 + mem (base + n) * 2 ^ (n * 8) <
          256 * 2 ^ (n * 8) := by omega
      calc (readLoop mem base n).1 + mem (base + n) * 2 ^ (n * 8)
          < 256 * 2 ^ (n * 8) := htot
        _ = 2 ^ ((n + 1) * 8) := by
            rw [show (256 : Nat) = 2 ^ 8 from by norm_num, ← pow_add]
            congr 1
            ring

/-- The decoder of manage_error_states never produces the driver level
Protected error. -/
theorem manage_error_states_ne_protected (f : IntFlags) :
    (manage_error_states f).1 ≠ .error .Protected := by
  rcases f with ⟨a, l, p⟩
  cases a <;> cases l <;> cases p <;> decide

/-- The erase loop never produces the driver level Protected error. -/
theorem eraseLoop_ne_protected (flags : Nat → IntFlags) (g : EraseGranularity) :
    ∀ n addr i, (eraseLoop flags g addr n i).1 ≠ .error .Protected := by
  intro n
  induction n with
  | zero => intro addr i; simp [eraseLoop]
  | succ n ih =>
    intro addr i
    rcases hm : (manage_error_states (flags i)).1 with _ | e
    · simpa [eraseLoop, hm] using ih (addr + g.size) (i + 1)
    · have hne := manage_error_states_ne_protected (flags i)
      rw [hm] at hne
      simpa [eraseLoop, hm] using hne

/-- Both granularity unit sizes are positive. -/
theorem EraseGranularity.size_pos (g : EraseGranularity) : 0 < g.size := by
  cases g <;> simp [EraseGranularity.size, PAGESIZE, BLOCKSIZE]

/-- A step count of one unit size over a range of len units is exactly len. -/
theorem stepCount_units (a len : Nat) (g : EraseGranularity) :
    stepCount ⟨a, a + len * g.size⟩ g.size = len := by
  have hpos := g.size_pos
  unfold stepCount
  dsimp only
  split
  · rw [Nat.add_sub_cancel_left]
    rw [show len * g.size + (g.size - 1) = g.size - 1 + len * g.size from by ring]
    rw [Nat.add_mul_div_right _ _ hpos, Nat.div_eq_of_lt (by omega)]
    omega
  · rename_i hlt
    have h0 : len * g.size = 0 := by omega
    have := Nat.mul_eq_zero.mp h0
    omega

/-- Unit event chains over successive erase addresses, peeled by one unit. -/
theorem unitChain_succ (g : EraseGranularity) (a n : Nat) :
    ((List.range (n + 1)).map (fun j => eraseUnitEvents g (a + j * g.size))).flatten =
      eraseUnitEvents g a ++
        ((List.range n).map (fun j => eraseUnitEvents g (a + g.size + j * g.size))).flatten := by
  rw [List.range_succ_eq_map, List.map_cons, List.flatten_cons, List.map_map]
  simp only [Nat.zero_mul, Nat.add_zero, Function.comp_def, Nat.succ_eq_add_one]
  congr 1
  apply congrArg
  apply List.map_congr_left
  intro j _
  congr 1
  ring

/-- When the decoder never reports an error, the erase loop runs every unit in
order and succeeds. -/
theorem eraseLoop_ok (flags : Nat → IntFlags) (g : EraseGranularity)
    (hok : ∀ i, (manage_error_states (flags i)).1 = .ok) :
    ∀ n addr i, eraseLoop flags g addr n i =
      (.ok, ((List.range n).map (fun k => eraseUnitEvents g (addr + k * g.size))).flatten) := by
  intro n
  induction n with
  | zero => intro addr i; simp [eraseLoop]
  | succ n ih =>
    intro addr i
    simp only [eraseLoop, hok i]
    rw [ih (addr + g.size) (i + 1), unitChain_succ]

/-- When the decoder first reports an error at unit k, the erase loop stops
right after unit k and returns that error. -/
theorem eraseLoop_stops (flags : Nat → IntFlags) (g : EraseGranularity) (e : Error) :
    ∀ k n addr i0, k < n →
      (∀ j, j < k → (manage_error_states (flags (i0 + j))).1 = .ok) →
      (manage_error_states (flags (i0 + k))).1 = .error e →
      eraseLoop flags g addr n i0 =
        (.error e,
          ((List.range (k + 1)).map
            (fun j => eraseUnitEvents g (addr + j * g.size))).flatten) := by
  intro k
  induction k with
  | zero =>
    intro n addr i0 hk hok herr
    obtain ⟨m, rfl⟩ : ∃ m, n = m + 1 := ⟨n - 1, by omega⟩
    rw [Nat.add_zero] at herr
    simp only [eraseLoop, herr]
    rw [unitChain_succ]
    simp
  | succ k ih =>
    intro n addr i0 hk hok herr
    obtain ⟨m, rfl⟩ : ∃ m, n = m + 1 := ⟨n - 1, by omega⟩
    have h0 : (manage_error_states (flags i0)).1 = .ok := by
      have := hok 0 (by omega)
      rwa [Nat.add_zero] at this
    simp only [eraseLoop, h0]
    rw [ih m (addr + g.size) (i0 + 1) (by omega)
      (fun j hj => by
        have := hok (j + 1) (by omega)
        rwa [show i0 + (j + 1) = i0 + 1 + j from by omega] at this)
      (by rwa [show i0 + 1 + k = i0 + (k + 1) from by omega])]
    rw [unitChain_succ g addr (k + 1), unitChain_succ g (addr + g.size) k]

/-- Shape of write once both alignment checks and both region checks pass. -/
theorem write_success_shape (s : NvmState) (dst src words : Nat)
    (hsrc : src % 4 = 0) (hdst : dst % 4 = 0)
    (hprot : contains_bootprotected s ⟨dst, (dst + (words * 4) % U32) % U32⟩ = false) :
    write s dst src words =
      ((manage_error_states s.intflag).1,
        Event.cmd Cmd.PBC ::
          (writeLoop dst src false
            (min (stepCount ⟨dst, (dst + (words * 4) % U32) % U32⟩ 4)
              (stepCount ⟨src, (src + (words * 4) % U32) % U32⟩ 4))).1 ++
          ((if (writeLoop dst src false
              (min (stepCount ⟨dst, (dst + (words * 4) % U32) % U32⟩ 4)
                (stepCount ⟨src, (src + (words * 4) % U32) % U32⟩ 4))).2 then
            [Event.cmd Cmd.WP] else []) ++ [Event.decode])) := by
  unfold write
  simp only [hsrc, hdst, hprot, contains_smart_eeprom, ne_eq, not_true_eq_false,
    if_false, Bool.false_eq_true, List.cons_append]
  norm_num

/-- Command count over the full event list produced by a successful write. -/
theorem countCmd_write_events (c : Cmd) (L : List Event) (b : Bool) :
    countCmd c
      ((Event.cmd Cmd.PBC :: L) ++ ((if b then [Event.cmd Cmd.WP] else []) ++ [Event.decode])) =
      (if Cmd.PBC = c then 1 else 0) + countCmd c L +
        (if b then (if Cmd.WP = c then 1 else 0) else 0) := by
  cases b <;> simp [countCmd, countCmd_append] <;> omega

/-- Claim C2: for a page aligned, unprotected, aligned destination, write
issues exactly one page buffer clear command, and one write page command per
full page of words plus one more for a trailing partial page: 128 words give
one WP, 130 words give two, and in general the WP count is
words / 128 plus (0 or 1 as 128 divides words or not). -/
theorem write_page_command_counts (s : NvmState) (dst src words : Nat)
    (hdst : dst % 512 = 0) (hsrc : src % 4 = 0)
    (hprot : contains_bootprotected s ⟨dst, dst + words * 4⟩ = false)
    (hd : dst + words * 4 < U32) (hs : src + words * 4 < U32) :
    countCmd Cmd.PBC (write s dst src words).2 = 1 ∧
    countCmd Cmd.WP (write s dst src words).2 =
      words / 128 + (if words % 128 = 0 then 0 else 1) := by
  have hU : U32 = 4294967296 := by norm_num [U32]
  have hlen : (words * 4) % U32 = words * 4 := Nat.mod_eq_of_lt (by omega)
  have hd2 : (dst + (words * 4) % U32) % U32 = dst + words * 4 := by
    rw [hlen]
    exact Nat.mod_eq_of_lt (by omega)
  have hs2 : (src + (words * 4) % U32) % U32 = src + words * 4 := by
    rw [hlen]
    exact Nat.mod_eq_of_lt (by omega)
  have hdst4 : dst % 4 = 0 := by omega
  have hprot2 : contains_bootprotected s ⟨dst, (dst + (words * 4) % U32) % U32⟩ = false := by
    rw [hd2]
    exact hprot
  rw [write_success_shape s dst src words hsrc hdst4 hprot2]
  rw [hd2, hs2, stepCount_words, stepCount_words, Nat.min_self]
  have hPBC := writeLoop_countPBC words dst src false
  have hWP := writeLoop_countWP words dst src false hdst4
  have hdirty := writeLoop_dirty words dst src false hdst4
  rw [hdst] at hWP hdirty
  dsimp only
  constructor
  · rw [countCmd_write_events, hPBC]
    simp
  · rw [countCmd_write_events, hWP, hdirty]
    simp only [Nat.zero_div, Nat.zero_add]
    by_cases hw : words = 0
    · subst hw
      simp
    · rw [if_neg hw]
      simp only [decide_eq_true_eq]
      by_cases h128 : words % 128 = 0
      · rw [if_neg (show ¬words % 128 ≠ 0 from by omega), if_pos h128]
        simp
      · rw [if_pos h128, if_neg h128]
        simp

/-- Claim C7: a write with a misaligned source or destination address returns
the Alignment error and issues zero hardware events. -/
theorem write_misaligned_rejected (s : NvmState) (dst src words : Nat)
    (h : src % 4 ≠ 0 ∨ dst % 4 ≠ 0) :
    write s dst src words = (.error .Alignment, []) := by
  unfold write
  by_cases hs : src % 4 ≠ 0
  · simp [hs]
  · rcases h with h | h
    · exact absurd h hs
    · simp [hs, h]

/-- Claim C6: with aligned addresses and no 32-bit overflow, a write whose
destination range genuinely intersects the boot protected half open range
fails with the Protected error and issues zero hardware events, for every
word count. -/
theorem write_protected_rejected (s : NvmState) (dst src words : Nat)
    (hsrc : src % 4 = 0) (hdst : dst % 4 = 0)
    (hov : dst + words * 4 < U32)
    (hbp : s.bpdis = false)
    (hint : rangesIntersect ⟨dst, dst + words * 4⟩ (boot_range s)) :
    write s dst src words = (.error .Protected, []) := by
  have hU : U32 = 4294967296 := by norm_num [U32]
  have hlen : (words * 4) % U32 = words * 4 := Nat.mod_eq_of_lt (by omega)
  have hd2 : (dst + (words * 4) % U32) % U32 = dst + words * 4 := by
    rw [hlen]
    exact Nat.mod_eq_of_lt (by omega)
  have hcont : contains_bootprotected s ⟨dst, dst + words * 4⟩ = true := by
    obtain ⟨x, ⟨hx1, hx2⟩, hx3, hx4⟩ := hint
    unfold contains_bootprotected is_boot_protected range_overlap
    rw [hbp]
    dsimp only at hx1 hx2 hx3 hx4 ⊢
    simp only [Bool.not_false, Bool.true_and, Bool.and_eq_true, decide_eq_true_eq]
    refine ⟨⟨⟨by omega, by omega⟩, by omega⟩, by omega⟩
  have hcont3 : contains_bootprotected s ⟨dst, (dst + words * 4) % U32⟩ = true := by
    rw [Nat.mod_eq_of_lt (by omega)]
    exact hcont
  unfold write
  simp [hsrc, hdst, hcont3]

/-- Claim C9: with aligned in-range addresses, a write of zero words passes
both region checks whatever the protection state, issues exactly one page
buffer clear command and no write page command, runs the error decoder once,
and returns the result of the decoder. -/
theorem write_zero_words (s : NvmState) (dst src : Nat)
    (hdst : dst % 4 = 0) (hsrc : src % 4 = 0) (hd : dst < U32) (hs : src < U32) :
    write s dst src 0 =
      ((manage_error_states s.intflag).1, [Event.cmd Cmd.PBC, Event.decode]) := by
  have hd2 : (dst + (0 * 4) % U32) % U32 = dst := by
    simpa using Nat.mod_eq_of_lt hd
  have hs2 : (src + (0 * 4) % U32) % U32 = src := by
    simpa using Nat.mod_eq_of_lt hs
  have hcont : contains_bootprotected s ⟨dst, dst⟩ = false := by
    unfold contains_bootprotected range_overlap
    simp
  have hcont2 : contains_bootprotected s ⟨dst, (dst + (0 * 4) % U32) % U32⟩ = false := by
    rw [hd2]
    exact hcont
  rw [write_success_shape s dst src 0 hsrc hdst hcont2]
  rw [hd2, hs2]
  have hsc : ∀ a : Nat, stepCount ⟨a, a⟩ 4 = 0 := by
    intro a
    unfold stepCount
    simp
  rw [hsc, hsc, Nat.min_self]
  simp [writeLoop]

/-- ADDR register writes of a chain of erase unit events. -/
theorem setAddrs_unitChain (g : EraseGranularity) (f : Nat → Nat) (l : List Nat) :
    setAddrs ((l.map (fun k => eraseUnitEvents g (f k))).flatten) =
      l.map (fun k => set_address_value (f k)) := by
  induction l with
  | nil => simp [setAddrs]
  | cons a rest ih =>
    simp only [List.map_cons, List.flatten_cons, setAddrs_append, ih]
    simp [eraseUnitEvents, setAddrs]

/-- Once the region checks pass, erase is the erase loop over the rounded
range, one iteration per requested unit. -/
theorem erase_passes_guard (s : NvmState) (flags : Nat → IntFlags)
    (address length : Nat) (g : EraseGranularity)
    (hov : address - address % g.size + length * g.size < U32)
    (hcont : contains_bootprotected s
      ⟨address - address % g.size, address - address % g.size + length * g.size⟩ = false) :
    erase s flags address length g =
      eraseLoop flags g (address - address % g.size) length 0 := by
  have hU : U32 = 4294967296 := by norm_num [U32]
  have hm : (length * g.size) % U32 = length * g.size := Nat.mod_eq_of_lt (by omega)
  have h2 : (address - address % g.size + (length * g.size) % U32) % U32 =
      address - address % g.size + length * g.size := by
    rw [hm]
    exact Nat.mod_eq_of_lt (by omega)
  unfold erase
  simp only [h2, hcont, contains_smart_eeprom, Bool.false_eq_true, if_false]
  rw [stepCount_units]

/-- When the region check rejects, erase returns Protected with no events. -/
theorem erase_rejected (s : NvmState) (flags : Nat → IntFlags)
    (address length : Nat) (g : EraseGranularity)
    (hov : address - address % g.size + length * g.size < U32)
    (hcont : contains_bootprotected s
      ⟨address - address % g.size, address - address % g.size + length * g.size⟩ = true) :
    erase s flags address length g = (.error .Protected, []) := by
  have hU : U32 = 4294967296 := by norm_num [U32]
  have hm : (length * g.size) % U32 = length * g.size := Nat.mod_eq_of_lt (by omega)
  have h2 : (address - address % g.size + (length * g.size) % U32) % U32 =
      address - address % g.size + length * g.size := by
    rw [hm]
    exact Nat.mod_eq_of_lt (by omega)
  unfold erase
  simp only [h2, hcont, if_true]

/-- Claim C5: erase rounds a misaligned address down to the containing unit
boundary before both the protection check and the erase loop: erase fails with
Protected exactly when the guard rejects the rounded range spanning length
units, and when the guard passes and the decoder stays silent the ADDR
register is set to each of the length unit addresses starting at the rounded
address. -/
theorem erase_rounds_down (s : NvmState) (flags : Nat → IntFlags)
    (address length : Nat) (g : EraseGranularity)
    (hov : address - address % g.size + length * g.size < U32) :
    ((erase s flags address length g).1 = .error .Protected ↔
      contains_bootprotected s
        ⟨address - address % g.size, address - address % g.size + length * g.size⟩ = true) ∧
    ((∀ i, (manage_error_states (flags i)).1 = .ok) →
      contains_bootprotected s
        ⟨address - address % g.size, address - address % g.size + length * g.size⟩ = false →
      setAddrs (erase s flags address length g).2 =
        (List.range length).map
          (fun i => set_address_value (address - address % g.size + i * g.size))) := by
  by_cases hcont : contains_bootprotected s
      ⟨address - address % g.size, address - address % g.size + length * g.size⟩ = true
  · rw [erase_rejected s flags address length g hov hcont]
    constructor
    · simp [hcont]
    · intro _ hfalse
      rw [hfalse] at hcont
      exact absurd hcont (by simp)
  · have hfalse : contains_bootprotected s
        ⟨address - address % g.size, address - address % g.size + length * g.size⟩ = false := by
      simpa using hcont
    rw [erase_passes_guard s flags address length g hov hfalse]
    constructor
    · constructor
      · intro habs
        exact absurd habs (eraseLoop_ne_protected flags g length (address - address % g.size) 0)
      · intro habs
        rw [habs] at hfalse
        simp at hfalse
    · intro hok _
      rw [eraseLoop_ok flags g hok length (address - address % g.size) 0]
      exact setAddrs_unitChain g (fun k => address - address % g.size + k * g.size) _

/-- Claim C8: when the decoder reports its first error after erase unit k, the
erase loop stops immediately: the recorded events are exactly those of units 0
through k, each one ADDR write, one erase command and one decoder run, the
error is returned, and no later unit address is set and no later erase command
is issued, with no rollback events for the units already erased. -/
theorem erase_stops_on_first_error (s : NvmState) (flags : Nat → IntFlags)
    (address length : Nat) (g : EraseGranularity) (k : Nat) (e : Error)
    (hov : address - address % g.size + length * g.size < U32)
    (hcont : contains_bootprotected s
      ⟨address - address % g.size, address - address % g.size + length * g.size⟩ = false)
    (hk : k < length)
    (hok : ∀ j, j < k → (manage_error_states (flags j)).1 = .ok)
    (herr : (manage_error_states (flags k)).1 = .error e) :
    erase s flags address length g =
      (.error e,
        ((List.range (k + 1)).map
          (fun j => eraseUnitEvents g (address - address % g.size + j * g.size))).flatten) := by
  rw [erase_passes_guard s flags address length g hov hcont]
  exact eraseLoop_stops flags g e k length (address - address % g.size) 0 hk
    (fun j hj => by simpa using hok j hj) (by simpa using herr)

/-- Claim C1 counterexample: with boot protection enabled at maximal strength,
the protected range is the half open range from 0 to 122880, and the input
range from 122880 to 122884 is disjoint from it as a half open set, yet
contains_bootprotected still returns true, because range_overlap compares
with inclusive endpoints. -/
theorem contains_bootprotected_touching_cex :
    contains_bootprotected stateProt ⟨122880, 122884⟩ = true ∧
    ¬rangesIntersect ⟨122880, 122884⟩ (boot_range stateProt) := by
  refine ⟨by decide, ?_⟩
  rintro ⟨x, ⟨hx1, hx2⟩, hx3, hx4⟩
  have hstop : (boot_range stateProt).stop = 122880 := by decide
  rw [hstop] at hx4
  dsimp only at hx1
  omega

/-- Claim C1 amended: contains_bootprotected returns true exactly when boot
protection is enabled, the input range is non empty, the protected size is non
zero and the input start does not lie strictly beyond the protected end, the
comparison being inclusive so that an input range merely touching the
protected end still counts; in particular it returns false whenever boot
protection is disabled. -/
theorem contains_bootprotected_iff (s : NvmState) (r : Range32) :
    (contains_bootprotected s r = true ↔
      s.bpdis = false ∧ r.start ≠ r.stop ∧ bp_space s ≠ 0 ∧ r.start ≤ bp_space s) ∧
    (s.bpdis = true → contains_bootprotected s r = false) := by
  constructor
  · unfold contains_bootprotected is_boot_protected range_overlap boot_range Bank.address
    dsimp only
    simp only [Bool.and_eq_true, decide_eq_true_eq, Bool.not_eq_true', Nat.zero_add]
    constructor
    · rintro ⟨h1, ⟨⟨h2, h3⟩, h4⟩, h5⟩
      exact ⟨h1, h2, by omega, h4⟩
    · rintro ⟨h1, h2, h3, h4⟩
      exact ⟨h1, ⟨⟨h2, by omega⟩, h4⟩, by omega⟩
  · intro h
    unfold contains_bootprotected is_boot_protected
    rw [h]
    simp

/-- Claim C3: manage_error_states classifies the flags it read in priority
order, address error before lock error before programming error, returning
success when none is set; it clears each of the three sticky flags exactly
once on every call, and it never produces the NvmError or ECC error
variants. -/
theorem manage_error_states_behavior (f : IntFlags) :
    ((manage_error_states f).1 =
      (if f.addre then .error (.Peripheral .AddressError)
       else if f.locke then .error (.Peripheral .LockError)
       else if f.proge then .error (.Peripheral .ProgrammingError)
       else .ok)) ∧
    countFlag StickyFlag.addre (manage_error_states f).2 = 1 ∧
    countFlag StickyFlag.locke (manage_error_states f).2 = 1 ∧
    countFlag StickyFlag.proge (manage_error_states f).2 = 1 ∧
    (manage_error_states f).1 ≠ .error (.Peripheral .NvmError) ∧
    (manage_error_states f).1 ≠ .error (.Peripheral .EccSingleError) ∧
    (manage_error_states f).1 ≠ .error (.Peripheral .EccDualError) := by
  rcases f with ⟨a, l, p⟩
  cases a <;> cases l <;> cases p <;> decide

/-- Claim C4 counterexample: calibration_area performs 6 byte reads, not 8,
and temperatures_calibration_area performs 11 byte reads, not 16. -/
theorem calibration_read_lengths_cex :
    (calibration_area (fun _ => 0)).2.length ≠ 8 ∧
    (temperatures_calibration_area (fun _ => 0)).2.length ≠ 16 := by
  decide

/-- Claim C4 amended: the fixed region decoders read fixed runs of bytes one
byte at a time from their fixed physical addresses with little endian
accumulation: user_page reads 16 bytes from 0x0080_4000, calibration_area
reads 6 bytes from 0x0080_0080, and temperatures_calibration_area reads 11
bytes from 0x0080_0100. -/
theorem fixed_region_decoders (mem : Nat → Nat) (hmem : ∀ a, mem a < 256) :
    (user_page mem).2 = (List.range 16).map (fun i => 0x00804000 + i) ∧
    (calibration_area mem).2 = (List.range 6).map (fun i => 0x00800080 + i) ∧
    (temperatures_calibration_area mem).2 = (List.range 11).map (fun i => 0x00800100 + i) ∧
    (user_page mem).1 = bytesLE mem 0x00804000 16 ∧
    (calibration_area mem).1 = bytesLE mem 0x00800080 6 ∧
    (temperatures_calibration_area mem).1 = bytesLE mem 0x00800100 11 := by
  refine ⟨readLoop_addrs mem 0x00804000 16, readLoop_addrs mem 0x00800080 6,
    readLoop_addrs mem 0x00800100 11, (readLoop_val mem 0x00804000 hmem 16).1,
    (readLoop_val mem 0x00800080 hmem 6).1, (readLoop_val mem 0x00800100 hmem 11).1⟩

/-- Claim C10: the vph accessor, bits 63 down to 52, and the vcl accessor,
bits 75 down to 63, overlap at bit 63 of the raw value: flipping bit 63
changes the result of both accessors, so the two named fields are not disjoint
bit ranges. -/
theorem vph_vcl_share_bit63 (raw : Nat) :
    vph (raw ^^^ 2 ^ 63) ≠ vph raw ∧ vcl (raw ^^^ 2 ^ 63) ≠ vcl raw := by
  constructor
  · intro h
    have h11 := congrArg (fun v => Nat.testBit v 11) h
    simp only [vph, Nat.testBit_mod_two_pow, Nat.testBit_shiftRight, Nat.testBit_xor] at h11
    rw [show (52 : Nat) + 11 = 63 from rfl] at h11
    rw [Nat.testBit_two_pow_self] at h11
    simp at h11
  · intro h
    have h0 := congrArg (fun v => Nat.testBit v 0) h
    simp only [vcl, Nat.testBit_mod_two_pow, Nat.testBit_shiftRight, Nat.testBit_xor] at h0
    rw [show (63 : Nat) + 0 = 63 from rfl] at h0
    rw [Nat.testBit_two_pow_self] at h0
    simp at h0

/-- Witness for the amended C1 theorem at a concrete disabled-protection state. -/
theorem contains_bootprotected_iff_witness :
    contains_bootprotected stateUnprot ⟨0, 99999⟩ = false :=
  (contains_bootprotected_iff stateUnprot ⟨0, 99999⟩).2 rfl

/-- Witness for C2 at a page aligned write of 130 words with protection off. -/
theorem write_page_command_counts_witness :
    countCmd Cmd.PBC (write stateUnprot 0 1024 130).2 = 1 ∧
    countCmd Cmd.WP (write stateUnprot 0 1024 130).2 =
      130 / 128 + (if 130 % 128 = 0 then 0 else 1) :=
  write_page_command_counts stateUnprot 0 1024 130 (by decide) (by decide) (by decide)
    (by decide) (by decide)

/-- Witness for the amended C4 theorem at the zero memory. -/
theorem fixed_region_decoders_witness :
    (calibration_area (fun _ => 0)).1 = bytesLE (fun _ => 0) 0x00800080 6 ∧
    (temperatures_calibration_area (fun _ => 0)).2 =
      (List.range 11).map (fun i => 0x00800100 + i) :=
  ⟨(fixed_region_decoders (fun _ => 0) (fun _ => (by decide : (0 : Nat) < 256))).2.2.2.2.1,
    (fixed_region_decoders (fun _ => 0) (fun _ => (by decide : (0 : Nat) < 256))).2.2.1⟩

/-- Witness for C5 at a misaligned erase of two pages with protection off. -/
theorem erase_rounds_down_witness :
    setAddrs (erase stateUnprot okFlags 1000 2 EraseGranularity.Page).2 =
      (List.range 2).map
        (fun i => set_address_value (1000 - 1000 % EraseGranularity.Page.size +
          i * EraseGranularity.Page.size)) :=
  (erase_rounds_down stateUnprot okFlags 1000 2 EraseGranularity.Page (by decide)).2
    (fun _ => rfl) (by decide)

/-- Witness for C6 at a one word write into the protected range. -/
theorem write_protected_rejected_witness :
    write stateProt 0 1024 1 = (.error .Protected, []) :=
  write_protected_rejected stateProt 0 1024 1 (by decide) (by decide) (by decide) rfl
    ⟨0, by decide⟩

/-- Witness for C7 at a misaligned destination address. -/
theorem write_misaligned_rejected_witness :
    write stateUnprot 2 0 5 = (.error .Alignment, []) :=
  write_misaligned_rejected stateUnprot 2 0 5 (Or.inr (by decide))

/-- Witness for C8 at an erase of two pages whose first unit reports an
address error. -/
theorem erase_stops_on_first_error_witness :
    erase stateUnprot errFlags 0 2 EraseGranularity.Page =
      (.error (.Peripheral .AddressError),
        ((List.range 1).map
          (fun j => eraseUnitEvents EraseGranularity.Page
            (0 - 0 % EraseGranularity.Page.size + j * EraseGranularity.Page.size))).flatten) :=
  erase_stops_on_first_error stateUnprot errFlags 0 2 EraseGranularity.Page 0
    (.Peripheral .AddressError) (by decide) (by decide) (by decide)
    (fun j hj => absurd hj (Nat.not_lt_zero j)) (by decide)

/-- Witness for C9 at a zero word write aimed inside the protected range. -/
theorem write_zero_words_witness :
    write stateProt 0 0 0 =
      ((manage_error_states stateProt.intflag).1, [Event.cmd Cmd.PBC, Event.decode]) :=
  write_zero_words stateProt 0 0 (by decide) (by decide) (by decide) (by decide)
